import Mathlib

/-!
A verification development for the `Skojar/thesis` citation-network explorer.

The Python program (authoritative module: `CitationNetworkExplorer.py`;
`thesistools.py` is an earlier draft of the same class that does not even
parse) pulls bibliographic records from the Scopus service and accumulates

  * `documents`        : the list of successfully pulled records,
  * `fails`            : the list of identifiers whose pull raised,
  * `citation_graph`   : a NetworkX `DiGraph` of "cites" edges,
  * `authorship_graph` : a NetworkX `DiGraph` linking documents to authors,
  * `last_quota`, `reset_time` : the most recent quota information.

This file gives a shallow embedding of that class.  The remote service
(`AbstractRetrieval`) is modelled as an oracle `fetch : String → Option Record`;
`fetch eid = none` models the constructor raising (network error, not found,
rate limit, ...), which is the error source the `try`/`except` in
`pull_abstract` is written around.  NetworkX dictionaries and attribute bags
are modelled as insertion-ordered association lists, matching Python `dict`
semantics (`update` replaces in place, new keys append at the end).
-/

namespace CiteNetX

/-- A primitive Python value that can appear inside a flags dictionary or as a
scalar node attribute: booleans, strings and integers cover every value the
program stores (`bipartite = 0/1`, `name = ...`, `year = '2020'`,
caller-supplied flags such as `initial = True`). -/
inductive FlagVal where
  | bool (b : Bool)
  | str (s : String)
  | int (n : Int)
deriving DecidableEq, Repr

/-- A Python dictionary of flags, insertion ordered. -/
abbrev Flags := List (String × FlagVal)

/-- A node-attribute value in a NetworkX graph: either a primitive value or a
nested dictionary (the program stores the whole flags dict under the keyword
`attr=` in `add_node`, which produces a nested dictionary value). -/
inductive AttrVal where
  | prim (v : FlagVal)
  | dict (d : Flags)
deriving DecidableEq, Repr

/-- A node's attribute bag: a Python dict from attribute names to values. -/
abbrev Attr := List (String × AttrVal)

/-- Python `d[k] = v` / one step of `dict.update`: replace in place if the key
is present, otherwise append at the end (insertion order). -/
def dictUpdate {α : Type} (d : List (String × α)) (k : String) (v : α) :
    List (String × α) :=
  if d.any (fun p => p.1 = k) then
    d.map (fun p => if p.1 = k then (k, v) else p)
  else
    d ++ [(k, v)]

/-- Python `d.update(kvs)`: apply `dictUpdate` for each pair in order. -/
def dictUpdateMany {α : Type} (d kvs : List (String × α)) : List (String × α) :=
  kvs.foldl (fun d p => dictUpdate d p.1 p.2) d

/-- Python `d[k] if k in d else None`: insertion-ordered lookup. -/
def dictGet {α : Type} (d : List (String × α)) (k : String) : Option α :=
  (d.find? (fun p => p.1 = k)).map (fun p => p.2)

/-- A NetworkX `DiGraph`: insertion-ordered nodes with attribute bags, and an
insertion-ordered, duplicate-free edge list. -/
structure Graph where
  nodes : List (String × Attr)
  edges : List (String × String)
deriving DecidableEq, Repr

/-- `nx.DiGraph()`. -/
def Graph.empty : Graph := ⟨[], []⟩

/-- NetworkX `add_node(n, **attrs)`: a new node is appended with the given
bag; an existing node has its bag updated (`dict.update` semantics), so
`add_node` with no attributes never changes an existing node's bag. -/
def Graph.addNode (g : Graph) (n : String) (attrs : Attr) : Graph :=
  if g.nodes.any (fun p => p.1 = n) then
    { g with nodes := g.nodes.map (fun p => if p.1 = n then (p.1, dictUpdateMany p.2 attrs) else p) }
  else
    { g with nodes := g.nodes ++ [(n, attrs)] }

/-- NetworkX `add_edge(u, v)`: both endpoints are added as attribute-free
nodes if absent (existing attribute bags are never touched), and the edge is
added if not already present. -/
def Graph.addEdge (g : Graph) (u v : String) : Graph :=
  let g1 := (g.addNode u []).addNode v []
  if (u, v) ∈ g1.edges then g1 else { g1 with edges := g1.edges ++ [(u, v)] }

/-- NetworkX `g.in_degree(n)`: number of edges into `n`. -/
def Graph.inDegree (g : Graph) (n : String) : Nat :=
  (g.edges.filter (fun e => e.2 = n)).length

/-- The node keys of a graph, in insertion order. -/
def Graph.nodeIds (g : Graph) : List String := g.nodes.map (fun p => p.1)

/-- A reference entry of a pulled abstract (`reference.id`: the short id). -/
structure RefItem where
  id : String
deriving DecidableEq, Repr

/-- An author entry of a pulled abstract. -/
structure AuthorItem where
  auid : String
  indexed_name : String
deriving DecidableEq, Repr

/-- A successfully pulled pybliometrics abstract, restricted to the fields the
program reads: `eid`, `coverDate`, `references`, `authors`, and the two quota
accessors (`get_key_remaining_quota` / `get_key_reset_time`, which may return
`None`, modelled as `Option.none`). -/
structure Record where
  eid : String
  coverDate : String
  references : Option (List RefItem)
  authors : Option (List AuthorItem)
  remaining_quota : Option String
  reset_time : Option String
deriving DecidableEq, Repr

/-- The mutable state of a `CitationNetworkExplorer` object.

`target_depth` is carried as data here; the traversal below takes it as an
explicit parameter because no statement in `pull_abstract` assigns it (only
`add_documents` does, between traversals), so it is constant for the whole
recursive call tree.

`log` is pure instrumentation, absent from the source: it records, in order,
every invocation of `pull_abstract` as a pair `(eid, depth)`.  No definition
reads it; it exists so that "a recursive pull of `r` at depth `d+1` happened"
is a statable property. -/
structure Session where
  documents : List Record
  fails : List String
  authorship_graph : Graph
  citation_graph : Graph
  target_depth : Nat
  last_quota : Option String
  reset_time : Option String
  log : List (String × Nat)
deriving DecidableEq, Repr

/-- `CitationNetworkExplorer.__init__`: the field initialisers from the source
(`last_quota` and `reset_time` start as the empty *string*, not `None`).
The `documents` parameter mirrors the Python parameter `documents = []`;
the aliasing of the shared mutable default list is modelled at the call
sites that use the default (see `second_fresh_session`). -/
def explorer_init (documents : List Record) : Session :=
  { documents := documents
    fails := []
    authorship_graph := Graph.empty
    citation_graph := Graph.empty
    target_depth := 0
    last_quota := some ""
    reset_time := some ""
    log := [] }

/-- A session constructed with `CitationNetworkExplorer()` on a genuinely
fresh (never mutated) default list. -/
def initSession : Session := explorer_init []

/-- `_eid_from_id`: prepend the fixed Scopus prefix constant `'2-s2.0-'`. -/
def eid_from_id (thisid : String) : String := "2-s2.0-" ++ thisid

/-- `is_repeat`: scan `self.documents`, remembering the last record whose
`eid` matches; returns `(found, match)`. -/
def is_repeat (σ : Session) (eid : String) : Bool × Option Record :=
  σ.documents.foldl
    (fun acc doc => if doc.eid = eid then (true, some doc) else acc)
    (false, none)

/-- The body of the author loop in `pull_abstract`: for each author, add the
author node (side 1, with display name) and the document→author edge to the
authorship graph. -/
def add_author_edges (aeid : String) (authors : List AuthorItem) (σ : Session) :
    Session :=
  authors.foldl
    (fun σ a =>
      let ag := σ.authorship_graph.addNode a.auid
        [("bipartite", AttrVal.prim (FlagVal.int 1)),
         ("name", AttrVal.prim (FlagVal.str a.indexed_name))]
      { σ with authorship_graph := ag.addEdge aeid a.auid })
    σ

/-- `min_indegree_to_pull` from `pull_abstract`. -/
def min_indegree_to_pull : Nat := 3

/-- The straight-line body of the successful-fetch branch of `pull_abstract`,
between `AbstractRetrieval` returning and `pull_references` running, in
source order:
1. overwrite the two quota fields,
2. `self.documents.append(abstract)`,
3. `flags.update(year = abstract.coverDate[:4])`,
4. `self.citation_graph.add_node(abstract.eid, attr=flags)` — the keyword
   `attr=` makes the whole (year-augmented) flags dict a *single* node
   attribute literally named `"attr"`,
5. (`report` only prints), and
6. if the abstract has authors, add the document node (side 0) to the
   authorship graph and then each author node and document→author edge. -/
def on_success (abstract : Record) (flags : Flags) (σ0 : Session) : Session :=
  let σ1 := { σ0 with last_quota := abstract.remaining_quota,
                      reset_time := abstract.reset_time }
  let σ2 := { σ1 with documents := σ1.documents ++ [abstract] }
  let flags1 := dictUpdate flags "year" (FlagVal.str (abstract.coverDate.take 4))
  let cg := σ2.citation_graph.addNode abstract.eid [("attr", AttrVal.dict flags1)]
  let σ3 := { σ2 with citation_graph := cg }
  match abstract.authors with
  | none => σ3
  | some authors =>
    let ag := σ3.authorship_graph.addNode abstract.eid
      [("bipartite", AttrVal.prim (FlagVal.int 0))]
    let σa := { σ3 with authorship_graph := ag }
    add_author_edges abstract.eid authors σa

mutual

/-- `pull_abstract(eid, depth, report, flags)` from `CitationNetworkExplorer.py`.

`fetch` is the `AbstractRetrieval` oracle (`none` = the constructor raised)
and `target_depth` is the value of `self.target_depth`, constant during the
traversal.  The first `let` is the ghost instrumentation log append; the rest
is a direct translation of the source:

* cache hit (`found == True`): only `pull_references(match)` runs;
* cache miss, fetch raises: `self.fails.append(eid)`;
* cache miss, fetch succeeds: the straight-line updates of `on_success`
  run and then the references are processed. -/
def pull_abstract (fetch : String → Option Record) (target_depth : Nat)
    (eid : String) (depth : Nat) (report : Bool) (flags : Flags)
    (σ : Session) : Session :=
  let σ0 := { σ with log := σ.log ++ [(eid, depth)] }
  let fm := is_repeat σ0 eid
  if fm.1 = false then
    match fetch eid with
    | none => { σ0 with fails := σ0.fails ++ [eid] }
    | some abstract =>
      pull_references fetch target_depth depth abstract (on_success abstract flags σ0)
  else
    match fm.2 with
    | some m => pull_references fetch target_depth depth m σ0
    | none => σ0
termination_by (target_depth - depth, 3, 0)
decreasing_by
  · exact Prod.Lex.right _ (Prod.Lex.left _ _ (by omega))
  · exact Prod.Lex.right _ (Prod.Lex.left _ _ (by omega))

/-- The inner closure `pull_references(abstract)` of `pull_abstract`: skip
entirely when the reference list is absent, otherwise loop over it. -/
def pull_references (fetch : String → Option Record) (target_depth : Nat)
    (depth : Nat) (abstract : Record) (σ : Session) : Session :=
  match abstract.references with
  | none => σ
  | some refs => pull_refs_list fetch target_depth depth abstract.eid refs σ
termination_by (target_depth - depth, 2, 0)
decreasing_by
  exact Prod.Lex.right _ (Prod.Lex.left _ _ (by omega))

/-- The `for reference in abstract.references` loop. -/
def pull_refs_list (fetch : String → Option Record) (target_depth : Nat)
    (depth : Nat) (aeid : String) (refs : List RefItem) (σ : Session) :
    Session :=
  match refs with
  | [] => σ
  | r :: rs =>
    pull_refs_list fetch target_depth depth aeid rs
      (process_reference fetch target_depth depth aeid r σ)
termination_by (target_depth - depth, 1, refs.length)
decreasing_by
  · exact Prod.Lex.right _ (Prod.Lex.left _ _ (by omega))
  · exact Prod.Lex.right _ (Prod.Lex.right _ (by simp [List.length_cons]))

/-- One iteration of the reference loop: unconditionally add the citation
edge (creating a stub node for the reference if absent), then — only if
`depth < self.target_depth` and the reference's in-degree, checked *after*
the edge was added, is at least `min_indegree_to_pull` — recursively pull
the reference at `depth + 1` (with `report` and `flags` at their defaults). -/
def process_reference (fetch : String → Option Record) (target_depth : Nat)
    (depth : Nat) (aeid : String) (r : RefItem) (σ : Session) : Session :=
  let reference_eid := eid_from_id r.id
  let σ1 := { σ with citation_graph := σ.citation_graph.addEdge aeid reference_eid }
  if h : depth < target_depth ∧
      min_indegree_to_pull ≤ σ1.citation_graph.inDegree reference_eid then
    pull_abstract fetch target_depth reference_eid (depth + 1) false [] σ1
  else
    σ1
termination_by (target_depth - depth, 0, 0)
decreasing_by
  exact Prod.Lex.left _ _ (by omega)

end

/-- `add_document(eid, report, flags)`: depth starts at zero. -/
def add_document (fetch : String → Option Record) (eid : String)
    (report : Bool) (flags : Flags) (σ : Session) : Session :=
  pull_abstract fetch σ.target_depth eid 0 report flags σ

/-- `add_documents(eidlist, target_depth, flags)`: `target_depth` is sticky —
the Python default `False` and the falsy value `0` both keep the previous
session value — then each id is pulled at depth 0. -/
def add_documents (fetch : String → Option Record) (eidlist : List String)
    (target_depth : Nat) (flags : Flags) (σ : Session) : Session :=
  let σ := { σ with target_depth :=
               if target_depth ≠ 0 then target_depth else σ.target_depth }
  eidlist.foldl (fun σ eid => add_document fetch eid false flags σ) σ

/-- `get_nodes_with_attribute(graph, attribute, value)`: linear scan of the
node attribute bags, keeping nodes whose bag has the key with that value.
(The Python parameter is named `attribute`, a reserved word here.) -/
def get_nodes_with_attribute (g : Graph) (attr_key : String) (value : AttrVal) :
    List String :=
  g.nodes.foldl
    (fun selected p =>
      match dictGet p.2 attr_key with
      | some v => if v = value then selected ++ [p.1] else selected
      | none => selected)
    []

/-- Adjacency in the undirected projection (`to_undirected`) of a digraph. -/
def adjacentU (g : Graph) (u v : String) : Bool :=
  decide ((u, v) ∈ g.edges) || decide ((v, u) ∈ g.edges)

/-- The ball of radius `k` around `u` in the undirected projection: `reachSet 0`
is `[u]`, and each step adds the not-yet-reached neighbours of the ball. -/
def reachSet (g : Graph) (u : String) : Nat → List String
  | 0 => [u]
  | k + 1 =>
    let prev := reachSet g u k
    prev ++ g.nodeIds.filter (fun v => !(prev.contains v) && prev.any (fun w => adjacentU g w v))

/-- `nx.shortest_path_length(to_undirected(g), u, v)`: the least `k` with `v`
in the radius-`k` ball around `u` — the geodesic distance (every finite
distance is at most the node count, so searching `0..|nodes|` is exhaustive).
`none` models the `NetworkXNoPath` exception for unreachable targets. -/
def shortest_path_length (g : Graph) (u v : String) : Option Nat :=
  (List.range (g.nodes.length + 1)).find? (fun k => (reachSet g u k).contains v)

/-- All ordered node pairs of a graph. -/
def nodePairs (g : Graph) : List (String × String) :=
  g.nodeIds.flatMap (fun u => g.nodeIds.map (fun v => (u, v)))

/-- The pairwise geodesic distances for a list of node pairs; `none` as soon
as one pair is unreachable (the exception escaping the eccentricity sweep). -/
def collectDistances (g : Graph) : List (String × String) → Option (List Nat)
  | [] => some []
  | p :: ps =>
    match shortest_path_length g p.1 p.2, collectDistances g ps with
    | some d, some ds => some (d :: ds)
    | _, _ => none

/-- `nx.diameter(to_undirected(g))`: the maximum pairwise geodesic distance.
`none` models the exceptions NetworkX raises on a graph with no nodes and on
a disconnected graph ("Found infinite path length"). -/
def diameter (g : Graph) : Option Nat :=
  match collectDistances g (nodePairs g) with
  | none => none
  | some [] => none
  | some (d :: ds) => some (ds.foldl max d)

/-- Whether the undirected projection is connected, phrased with the same
path computation the distance query uses. -/
def connectedU (g : Graph) : Bool :=
  g.nodeIds.all (fun u => g.nodeIds.all (fun v => (shortest_path_length g u v).isSome))

/-- `distance_from_initial_sample(node_id)`: collect the nodes flagged
`initial = True`, compute the graph diameter of the undirected projection
(NetworkX raises here when the projection is empty or disconnected — the
`none` case), then fold `min` over the geodesic distances from each initial
node to `node_id` (each of which raises — `none` — when unreachable).
The `Option` bind of `foldlM` models the exception escaping the loop. -/
def distance_from_initial_sample (σ : Session) (node_id : String) : Option Nat :=
  let initial_node_ids :=
    get_nodes_with_attribute σ.citation_graph "initial" (AttrVal.prim (FlagVal.bool true))
  match diameter σ.citation_graph with
  | none => none
  | some d0 =>
    initial_node_ids.foldlM
      (fun dist i => (shortest_path_length σ.citation_graph i node_id).map (fun t => min dist t))
      d0

/-- The pickled checkpoint bundle.  Each field is optional so that a blob
that does not contain the expected dictionary key can be represented; reading
a missing field models the `KeyError` from `content['...']`. -/
structure Blob where
  documents : Option (List Record)
  authorship : Option Graph
  citations : Option Graph
deriving DecidableEq, Repr

/-- The checkpoint directory contents: filename → stored blob (`none` = the
file is missing or `pickle.load` raises). -/
abbrev FS := String → Option Blob

/-- `f"{CHECKPOINT_FILENAME_BASE}{key}.pickle"`. -/
def checkpoint_filename (key : String) : String :=
  "CiteNetXCheckpoints" ++ key ++ ".pickle"

/-- `save_checkpoint(key)`: derive the filename from the key (or from the
current timestamp `now` when the key is `None`) and write the three-entry
bundle there. -/
def save_checkpoint (now : String) (key : Option String) (σ : Session) (fs : FS) : FS :=
  let k := match key with | none => now | some k => k
  fun name =>
    if name = checkpoint_filename k then
      some ⟨some σ.documents, some σ.authorship_graph, some σ.citation_graph⟩
    else fs name

/-- `load_checkpoint(key)`: with no key, just print and return.  Otherwise
read and unpickle the file (any failure up to there is caught with the state
untouched), then assign `documents`, `authorship_graph`, `citation_graph`
*in that order, one statement at a time, inside the `try`* — so a `KeyError`
on a later key leaves the earlier assignments in place. -/
def load_checkpoint (fs : FS) (key : Option String) (σ : Session) : Session :=
  match key with
  | none => σ
  | some k =>
    match fs (checkpoint_filename k) with
    | none => σ
    | some content =>
      match content.documents with
      | none => σ
      | some d =>
        let σ1 := { σ with documents := d }
        match content.authorship with
        | none => σ1
        | some a =>
          let σ2 := { σ1 with authorship_graph := a }
          match content.citations with
          | none => σ2
          | some c => { σ2 with citation_graph := c }

/-- `quotas()`: report the most recent quota information.  `fromiso` is
Python's `datetime.fromisoformat` (external; `none` = it raises `ValueError`,
which it does in particular on the empty string) and `now` is the current
time.  The sentinel strings are only used when the stored fields are `None`;
a non-`None` `reset_time` is always parsed, and a parse failure escapes as
`ValueError` (the `Except.error` case). -/
def quotas (fromiso : String → Option Int) (now : Int) (σ : Session) :
    Except String (String × String) :=
  let reset_unknown := "Reset Time Unknown"
  let quota_unknown := "Pulls Remaining Unknown"
  let quota_string :=
    match σ.last_quota with
    | none => quota_unknown
    | some q => "remaining pulls this key: " ++ q ++ "."
  match σ.reset_time with
  | none => Except.ok (quota_string, reset_unknown)
  | some s =>
    match fromiso s with
    | none => Except.error "ValueError: Invalid isoformat string"
    | some endT =>
      let reset_string :=
        "key resets on " ++ s ++ " (" ++ toString (endT - now) ++ ")"
      Except.ok (quota_string, reset_string)

/-! ### Concrete data used by witnesses and counterexamples -/

/-- A record for eid `"A"`, published 2020, citing short id `"R"`. -/
def recA : Record :=
  ⟨"A", "2020-01-01", some [⟨"R"⟩], some [⟨"au1", "Doe J."⟩],
    some "9999", some "2026-01-01T00:00:00"⟩

/-- An oracle that succeeds on `"A"` only. -/
def fetchW : String → Option Record :=
  fun e => if e = "A" then some recA else none

/-- A checkpoint blob that unpickles but lacks the `'authorship'` and
`'citations'` entries. -/
def blobIncomplete : Blob := ⟨some [recA], none, none⟩

/-- A checkpoint directory holding only the partial blob under key `"K"`. -/
def fsIncomplete : FS :=
  fun name => if name = checkpoint_filename "K" then some blobIncomplete else none

/-- A session whose citation graph is disconnected (two isolated nodes) with
node `"A"` flagged `initial = True`. -/
def sessionDisconnected : Session :=
  { initSession with citation_graph :=
      ⟨[("A", [("initial", AttrVal.prim (FlagVal.bool true))]), ("B", [])], []⟩ }

/-- A session whose citation graph is connected, with seed-flagged `"A"`. -/
def sessionConnected : Session :=
  { initSession with citation_graph :=
      ⟨[("A", [("initial", AttrVal.prim (FlagVal.bool true))]), ("B", [])],
        [("A", "B")]⟩ }

/-- Python evaluates the default expression `[]` of `__init__(self,
documents = [])` once, when the `def` statement is executed; every
construction that omits the argument binds `self.documents` to that same
list object, and `self.documents.append(abstract)` in `pull_abstract`
mutates it in place.  This definition replays such a process history:
construct a session with the default list, pull document `"A"` successfully
(the append goes through the alias into the shared default object), then
construct a second session which receives the now-mutated default list. -/
def second_fresh_session : Session :=
  let s1 := explorer_init []
  let s1p := pull_abstract fetchW 0 "A" 0 false [] s1
  explorer_init s1p.documents

/-- The session after one successful pull of `"A"` with caller flags
`{'initial': True}` on a fresh session. -/
def c5_session : Session :=
  pull_abstract fetchW 0 "A" 0 false [("initial", FlagVal.bool true)] initSession

/-- A session with a non-empty Record Store, for the checkpoint witness. -/
def sessionNonempty : Session := { initSession with documents := [recA] }

/-- The arguments of one `pull_abstract` call. -/
structure Call where
  target_depth : Nat
  eid : String
  depth : Nat
  report : Bool
  flags : Flags
deriving Repr

/-- Run a sequence of `pull_abstract` calls against one session. -/
def run_calls (fetch : String → Option Record) (calls : List Call) (σ : Session) :
    Session :=
  calls.foldl
    (fun σ c => pull_abstract fetch c.target_depth c.eid c.depth c.report c.flags σ) σ

/-- The eids of the Record Store entries, in insertion order. -/
def doc_eids (σ : Session) : List String := σ.documents.map Record.eid

/-- The monotone footprint of one engine call: the instrumentation log, the
citation edge list, the document list and the fail list are only ever
appended to. -/
def Ext (σ σ' : Session) : Prop :=
  σ.log <+: σ'.log ∧
  σ.citation_graph.edges <+: σ'.citation_graph.edges ∧
  σ.documents <+: σ'.documents ∧
  σ.fails <+: σ'.fails

/-! ## Lemmas -/

theorem Ext.rfl' (σ : Session) : Ext σ σ :=
  ⟨List.prefix_rfl, List.prefix_rfl, List.prefix_rfl, List.prefix_rfl⟩

theorem Ext.trans' {a b c : Session} (h1 : Ext a b) (h2 : Ext b c) : Ext a c :=
  ⟨h1.1.trans h2.1, h1.2.1.trans h2.2.1, h1.2.2.1.trans h2.2.2.1,
   h1.2.2.2.trans h2.2.2.2⟩

theorem Graph.addNode_edges (g : Graph) (n : String) (a : Attr) :
    (g.addNode n a).edges = g.edges := by
  unfold Graph.addNode; split <;> rfl

theorem Graph.addEdge_extends_edges (g : Graph) (u v : String) :
    g.edges <+: (g.addEdge u v).edges := by
  unfold Graph.addEdge
  dsimp only
  split
  · rw [Graph.addNode_edges, Graph.addNode_edges]
  · rw [Graph.addNode_edges, Graph.addNode_edges]
    exact List.prefix_append _ _

theorem Graph.addEdge_mem (g : Graph) (u v : String) :
    (u, v) ∈ (g.addEdge u v).edges := by
  unfold Graph.addEdge
  dsimp only
  split
  next h => simpa [Graph.addNode_edges] using h
  · simp [Graph.addNode_edges]

theorem add_author_edges_eq (aeid : String) (l : List AuthorItem) :
    ∀ σ : Session, ∃ ag, add_author_edges aeid l σ = { σ with authorship_graph := ag } := by
  induction l with
  | nil => exact fun σ => ⟨σ.authorship_graph, rfl⟩
  | cons a rs ih =>
    intro σ
    simp only [add_author_edges, List.foldl_cons] at ih ⊢
    exact ih _

theorem add_author_edges_documents (aeid : String) (l : List AuthorItem) (σ : Session) :
    (add_author_edges aeid l σ).documents = σ.documents := by
  obtain ⟨ag, h⟩ := add_author_edges_eq aeid l σ; rw [h]

theorem add_author_edges_fails (aeid : String) (l : List AuthorItem) (σ : Session) :
    (add_author_edges aeid l σ).fails = σ.fails := by
  obtain ⟨ag, h⟩ := add_author_edges_eq aeid l σ; rw [h]

theorem add_author_edges_log (aeid : String) (l : List AuthorItem) (σ : Session) :
    (add_author_edges aeid l σ).log = σ.log := by
  obtain ⟨ag, h⟩ := add_author_edges_eq aeid l σ; rw [h]

theorem add_author_edges_citation (aeid : String) (l : List AuthorItem) (σ : Session) :
    (add_author_edges aeid l σ).citation_graph = σ.citation_graph := by
  obtain ⟨ag, h⟩ := add_author_edges_eq aeid l σ; rw [h]

theorem on_success_documents (abstract : Record) (flags : Flags) (σ : Session) :
    (on_success abstract flags σ).documents = σ.documents ++ [abstract] := by
  cases habst : abstract.authors with
  | none => simp [on_success, habst]
  | some authors => simp [on_success, habst, add_author_edges_documents]

theorem on_success_fails (abstract : Record) (flags : Flags) (σ : Session) :
    (on_success abstract flags σ).fails = σ.fails := by
  cases habst : abstract.authors with
  | none => simp [on_success, habst]
  | some authors => simp [on_success, habst, add_author_edges_fails]

theorem on_success_log (abstract : Record) (flags : Flags) (σ : Session) :
    (on_success abstract flags σ).log = σ.log := by
  cases habst : abstract.authors with
  | none => simp [on_success, habst]
  | some authors => simp [on_success, habst, add_author_edges_log]

theorem on_success_edges (abstract : Record) (flags : Flags) (σ : Session) :
    (on_success abstract flags σ).citation_graph.edges = σ.citation_graph.edges := by
  cases habst : abstract.authors with
  | none => simp [on_success, habst, Graph.addNode_edges]
  | some authors =>
    simp [on_success, habst, add_author_edges_citation, Graph.addNode_edges]

theorem ext_on_success (abstract : Record) (flags : Flags) (σ : Session) :
    Ext σ (on_success abstract flags σ) := by
  refine ⟨?_, ?_, ?_, ?_⟩
  · rw [on_success_log]
  · rw [on_success_edges]
  · rw [on_success_documents]; exact List.prefix_append _ _
  · rw [on_success_fails]

theorem ext_all (fetch : String → Option Record) :
    ∀ (n td depth : Nat), td - depth ≤ n →
      (∀ aeid r σ, Ext σ (process_reference fetch td depth aeid r σ)) ∧
      (∀ aeid refs σ, Ext σ (pull_refs_list fetch td depth aeid refs σ)) ∧
      (∀ a σ, Ext σ (pull_references fetch td depth a σ)) ∧
      (∀ eid report flags σ,
        Ext { σ with log := σ.log ++ [(eid, depth)] }
            (pull_abstract fetch td eid depth report flags σ)) := by
  intro n
  induction n using Nat.strong_induction_on with
  | _ n ih =>
  intro td depth hn
  have hproc : ∀ aeid r σ, Ext σ (process_reference fetch td depth aeid r σ) := by
    intro aeid r σ
    simp only [process_reference]
    dsimp only
    split
    next hgate =>
      refine Ext.trans'
        (b := { σ with citation_graph := σ.citation_graph.addEdge aeid (eid_from_id r.id) })
        ⟨List.prefix_rfl, Graph.addEdge_extends_edges _ _ _, List.prefix_rfl, List.prefix_rfl⟩ ?_
      have hm : td - (depth + 1) < n := by
        have := hgate.1; omega
      have h2 := (ih _ hm td (depth + 1) le_rfl).2.2.2 (eid_from_id r.id) false []
        { σ with citation_graph := σ.citation_graph.addEdge aeid (eid_from_id r.id) }
      refine Ext.trans' ?_ h2
      exact ⟨List.prefix_append _ _, List.prefix_rfl, List.prefix_rfl, List.prefix_rfl⟩
    next hgate =>
      exact ⟨List.prefix_rfl, Graph.addEdge_extends_edges _ _ _, List.prefix_rfl, List.prefix_rfl⟩
  have hlist : ∀ aeid refs σ, Ext σ (pull_refs_list fetch td depth aeid refs σ) := by
    intro aeid refs
    induction refs with
    | nil => intro σ; simp only [pull_refs_list]; exact Ext.rfl' σ
    | cons r rs ihr =>
      intro σ
      simp only [pull_refs_list]
      exact Ext.trans' (hproc aeid r σ) (ihr _)
  have hrefs : ∀ a σ, Ext σ (pull_references fetch td depth a σ) := by
    intro a σ
    rcases habst : a.references with _ | refs
    · simp only [pull_references, habst]; exact Ext.rfl' σ
    · simp only [pull_references, habst]; exact hlist _ _ _
  refine ⟨hproc, hlist, hrefs, ?_⟩
  intro eid report flags σ
  simp only [pull_abstract]
  split
  · rcases hf : fetch eid with _ | abstract
    · simp only [hf]
      exact ⟨List.prefix_rfl, List.prefix_rfl, List.prefix_rfl, List.prefix_append _ _⟩
    · simp only [hf]
      exact Ext.trans' (ext_on_success abstract flags _) (hrefs _ _)
  · rcases hm : (is_repeat { σ with log := σ.log ++ [(eid, depth)] } eid).2 with _ | m
    · simp only [hm]; exact Ext.rfl' _
    · simp only [hm]; exact hrefs _ _

theorem ext_pull_abstract (fetch : String → Option Record) (td : Nat) (eid : String)
    (depth : Nat) (report : Bool) (flags : Flags) (σ : Session) :
    Ext σ (pull_abstract fetch td eid depth report flags σ) := by
  have h := (ext_all fetch (td - depth) td depth le_rfl).2.2.2 eid report flags σ
  refine Ext.trans' ?_ h
  exact ⟨List.prefix_append _ _, List.prefix_rfl, List.prefix_rfl, List.prefix_rfl⟩

theorem pull_abstract_log (fetch : String → Option Record) (td : Nat) (eid : String)
    (depth : Nat) (report : Bool) (flags : Flags) (σ : Session) :
    ∃ t, (pull_abstract fetch td eid depth report flags σ).log =
          σ.log ++ (eid, depth) :: t := by
  obtain ⟨t, ht⟩ := ((ext_all fetch (td - depth) td depth le_rfl).2.2.2 eid report flags σ).1
  refine ⟨t, ?_⟩
  rw [← ht, List.append_assoc]
  simp

theorem ext_pull_refs_list (fetch : String → Option Record) (td depth : Nat)
    (aeid : String) (refs : List RefItem) (σ : Session) :
    Ext σ (pull_refs_list fetch td depth aeid refs σ) :=
  (ext_all fetch (td - depth) td depth le_rfl).2.1 aeid refs σ

theorem ext_process_reference (fetch : String → Option Record) (td depth : Nat)
    (aeid : String) (r : RefItem) (σ : Session) :
    Ext σ (process_reference fetch td depth aeid r σ) :=
  (ext_all fetch (td - depth) td depth le_rfl).1 aeid r σ

theorem ext_pull_references (fetch : String → Option Record) (td depth : Nat)
    (a : Record) (σ : Session) :
    Ext σ (pull_references fetch td depth a σ) :=
  (ext_all fetch (td - depth) td depth le_rfl).2.2.1 a σ

theorem is_repeat_foldl (eid : String) :
    ∀ (l : List Record) (b : Bool) (m : Option Record),
      (l.foldl (fun acc doc => if doc.eid = eid then (true, some doc) else acc) (b, m)).1
        = (b || l.any (fun d => d.eid == eid)) := by
  intro l
  induction l with
  | nil => intro b m; simp
  | cons d rs ih =>
    intro b m
    simp only [List.foldl_cons, List.any_cons]
    by_cases h : d.eid = eid
    · simp [h, ih]
    · have hb : (d.eid == eid) = false := beq_eq_false_iff_ne.mpr h
      simp [h, ih, hb]

theorem is_repeat_fst_false_iff (σ : Session) (eid : String) :
    (is_repeat σ eid).1 = false ↔ ∀ d ∈ σ.documents, d.eid ≠ eid := by
  rw [is_repeat, is_repeat_foldl]
  simp

theorem nodup_all (fetch : String → Option Record)
    (hf : ∀ e rec, fetch e = some rec → rec.eid = e) :
    ∀ (n td depth : Nat), td - depth ≤ n →
      (∀ aeid r σ, (doc_eids σ).Nodup →
        (doc_eids (process_reference fetch td depth aeid r σ)).Nodup) ∧
      (∀ aeid refs σ, (doc_eids σ).Nodup →
        (doc_eids (pull_refs_list fetch td depth aeid refs σ)).Nodup) ∧
      (∀ a σ, (doc_eids σ).Nodup →
        (doc_eids (pull_references fetch td depth a σ)).Nodup) ∧
      (∀ eid report flags σ, (doc_eids σ).Nodup →
        (doc_eids (pull_abstract fetch td eid depth report flags σ)).Nodup) := by
  intro n
  induction n using Nat.strong_induction_on with
  | _ n ih =>
  intro td depth hn
  have hproc : ∀ aeid r σ, (doc_eids σ).Nodup →
      (doc_eids (process_reference fetch td depth aeid r σ)).Nodup := by
    intro aeid r σ hσ
    simp only [process_reference]
    dsimp only
    split
    next hgate =>
      have hm : td - (depth + 1) < n := by
        have := hgate.1; omega
      exact (ih _ hm td (depth + 1) le_rfl).2.2.2 (eid_from_id r.id) false [] _ hσ
    next hgate => exact hσ
  have hlist : ∀ aeid refs σ, (doc_eids σ).Nodup →
      (doc_eids (pull_refs_list fetch td depth aeid refs σ)).Nodup := by
    intro aeid refs
    induction refs with
    | nil => intro σ hσ; simpa only [pull_refs_list] using hσ
    | cons r rs ihr =>
      intro σ hσ
      simp only [pull_refs_list]
      exact ihr _ (hproc aeid r σ hσ)
  have hrefs : ∀ a σ, (doc_eids σ).Nodup →
      (doc_eids (pull_references fetch td depth a σ)).Nodup := by
    intro a σ hσ
    rcases habst : a.references with _ | refs
    · simpa only [pull_references, habst] using hσ
    · simp only [pull_references, habst]; exact hlist _ _ _ hσ
  refine ⟨hproc, hlist, hrefs, ?_⟩
  intro eid report flags σ hσ
  simp only [pull_abstract]
  split
  next hfound =>
    rcases hfe : fetch eid with _ | abstract
    · simpa only [hfe, doc_eids] using hσ
    · simp only [hfe]
      refine hrefs _ _ ?_
      have heid : abstract.eid = eid := hf eid abstract hfe
      have hnotin : abstract.eid ∉ doc_eids σ := by
        rw [heid]
        intro hmem
        obtain ⟨d, hd, hde⟩ := List.mem_map.mp hmem
        exact (is_repeat_fst_false_iff _ eid).mp hfound d hd hde
      have hdocs : doc_eids (on_success abstract flags
          { σ with log := σ.log ++ [(eid, depth)] }) = doc_eids σ ++ [abstract.eid] := by
        simp [doc_eids, on_success_documents]
      rw [hdocs]
      simp only [List.nodup_append, List.nodup_cons, List.nodup_nil]
      refine ⟨hσ, by simp, ?_⟩
      intro x hx hx1
      simp only [List.mem_singleton] at hx1
      exact hnotin (hx1 ▸ hx)
  next hfound =>
    rcases hm2 : (is_repeat { σ with log := σ.log ++ [(eid, depth)] } eid).2 with _ | m
    · simpa only [hm2, doc_eids] using hσ
    · simp only [hm2]; exact hrefs _ _ hσ

theorem nodup_pull_abstract (fetch : String → Option Record)
    (hf : ∀ e rec, fetch e = some rec → rec.eid = e)
    (td : Nat) (eid : String) (depth : Nat) (report : Bool) (flags : Flags)
    (σ : Session) (hσ : (doc_eids σ).Nodup) :
    (doc_eids (pull_abstract fetch td eid depth report flags σ)).Nodup :=
  (nodup_all fetch hf (td - depth) td depth le_rfl).2.2.2 eid report flags σ hσ

theorem pull_refs_list_edge (fetch : String → Option Record) (td depth : Nat)
    (aeid : String) :
    ∀ (refs : List RefItem) (σ : Session) (r : RefItem), r ∈ refs →
      (aeid, eid_from_id r.id) ∈
        (pull_refs_list fetch td depth aeid refs σ).citation_graph.edges := by
  intro refs
  induction refs with
  | nil => intro σ r h; simp at h
  | cons q rs ihr =>
    intro σ r hr
    simp only [pull_refs_list]
    rcases List.mem_cons.mp hr with h | h
    · subst h
      have h1 : (aeid, eid_from_id r.id) ∈
          (process_reference fetch td depth aeid r σ).citation_graph.edges := by
        simp only [process_reference]
        dsimp only
        split
        · have hmem : (aeid, eid_from_id r.id) ∈
              (σ.citation_graph.addEdge aeid (eid_from_id r.id)).edges :=
            Graph.addEdge_mem _ _ _
          have hext := ext_pull_abstract fetch td (eid_from_id r.id) (depth + 1) false []
            { σ with citation_graph := σ.citation_graph.addEdge aeid (eid_from_id r.id) }
          exact hext.2.1.subset hmem
        · exact Graph.addEdge_mem _ _ _
      exact (ext_pull_refs_list fetch td depth aeid rs _).2.1.subset h1
    · exact ihr _ r h

/-! ## Claim theorems -/

/-- C1.  Popularity gate: while processing one reference `r` of the record in
hand at depth `d`, the recursive `pull_abstract` call on `r` (at depth `d+1`,
observable as the next entry of the instrumentation log) is made if and only
if, at the time of the check — i.e. after the citation edge to `r` has been
added — `d < target_depth` and the in-degree of `r` in the citation graph is
at least `min_indegree_to_pull = 3`. -/
theorem popularity_gate_iff (fetch : String → Option Record)
    (target_depth depth : Nat) (aeid : String) (r : RefItem) (σ : Session) :
    (process_reference fetch target_depth depth aeid r σ).log[σ.log.length]?
        = some (eid_from_id r.id, depth + 1)
      ↔ (depth < target_depth ∧ min_indegree_to_pull ≤
          (σ.citation_graph.addEdge aeid (eid_from_id r.id)).inDegree (eid_from_id r.id)) := by
  simp only [process_reference]
  dsimp only
  split
  next hgate =>
    refine iff_of_true ?_ hgate
    obtain ⟨t, ht⟩ := pull_abstract_log fetch target_depth (eid_from_id r.id) (depth + 1)
      false [] { σ with citation_graph := σ.citation_graph.addEdge aeid (eid_from_id r.id) }
    rw [ht]
    rw [List.getElem?_append_right le_rfl]
    simp
  next hgate =>
    refine iff_of_false ?_ hgate
    simp [List.getElem?_length]

/-- C2.  Unconditional edge creation: if `pull_abstract eid` finds the record
`rec` in the Record Store, or fetches it successfully (the service returning
the record for the requested id, so `rec.eid = eid`), then after the call an
edge from `eid` to the canonical id of each reference of `rec` is in the
citation graph, whether or not that reference was itself expanded. -/
theorem citation_edges_unconditional (fetch : String → Option Record)
    (target_depth : Nat) (eid : String) (depth : Nat) (report : Bool)
    (flags : Flags) (σ : Session) (rec : Record)
    (hrec : is_repeat σ eid = (true, some rec) ∨
            ((is_repeat σ eid).1 = false ∧ fetch eid = some rec))
    (heid : rec.eid = eid)
    (refs : List RefItem) (hrefs : rec.references = some refs)
    (r : RefItem) (hr : r ∈ refs) :
    (eid, eid_from_id r.id) ∈
      (pull_abstract fetch target_depth eid depth report flags σ).citation_graph.edges := by
  simp only [pull_abstract]
  rcases hrec with h1 | ⟨hfalse, hfetch⟩
  · have h1' : is_repeat { σ with log := σ.log ++ [(eid, depth)] } eid = (true, some rec) := h1
    simp only [h1']
    simp only [pull_references, hrefs]
    rw [if_neg (by simp)]
    rw [heid]
    exact pull_refs_list_edge fetch target_depth depth eid refs _ r hr
  · have hfalse' : (is_repeat { σ with log := σ.log ++ [(eid, depth)] } eid).1 = false := hfalse
    simp only [hfalse', hfetch]
    simp only [pull_references, hrefs]
    rw [if_pos trivial]
    rw [heid]
    exact pull_refs_list_edge fetch target_depth depth eid refs _ r hr

/-- C3.  Idempotent dedup: for every sequence of `pull_abstract` calls run
from an empty session against a service that returns the record for the
requested id, the Record Store never holds two records with the same
canonical id — a repeated id is not re-fetched and no second entry is
appended. -/
theorem record_store_dedup (fetch : String → Option Record)
    (hf : ∀ e rec, fetch e = some rec → rec.eid = e) (calls : List Call) :
    (doc_eids (run_calls fetch calls initSession)).Nodup := by
  have hstep : ∀ (cs : List Call) (σ : Session), (doc_eids σ).Nodup →
      (doc_eids (run_calls fetch cs σ)).Nodup := by
    intro cs
    induction cs with
    | nil => intro σ h; simpa [run_calls] using h
    | cons c cs ihc =>
      intro σ h
      simp only [run_calls, List.foldl_cons] at ihc ⊢
      exact ihc _ (nodup_pull_abstract fetch hf _ _ _ _ _ _ h)
  exact hstep calls initSession (by simp [doc_eids, initSession, explorer_init])

/-- C4.  Failed-fetch atomicity: if `eid` is not in the Record Store and the
remote fetch raises, `pull_abstract` returns the state unchanged except that
`eid` is appended to the fail list (and the call is recorded in the
instrumentation log); in particular the citation graph, the authorship graph
and the Record Store are untouched and no exception escapes (the function is
total). -/
theorem failed_fetch_atomic (fetch : String → Option Record) (target_depth : Nat)
    (x : String) (depth : Nat) (report : Bool) (flags : Flags) (σ : Session)
    (hmiss : (is_repeat σ x).1 = false) (hfail : fetch x = none) :
    pull_abstract fetch target_depth x depth report flags σ =
      { σ with fails := σ.fails ++ [x], log := σ.log ++ [(x, depth)] } := by
  simp only [pull_abstract]
  have hmiss' : (is_repeat { σ with log := σ.log ++ [(x, depth)] } x).1 = false := hmiss
  simp [hmiss', hfail]

theorem fetchW_eid : ∀ e rec, fetchW e = some rec → rec.eid = e := by
  intro e rec h
  unfold fetchW at h
  split at h
  next he =>
    injection h with h2
    rw [← h2, he]
    rfl
  next => cases h

/-- C2 witness: a concrete successful pull of `"A"` leaves the edge to its
reference `"R"` in the citation graph. -/
theorem citation_edges_unconditional_witness :
    ("A", eid_from_id "R") ∈
      (pull_abstract fetchW 0 "A" 0 false [] initSession).citation_graph.edges :=
  citation_edges_unconditional fetchW 0 "A" 0 false [] initSession recA
    (Or.inr ⟨by decide, by decide⟩) (by decide) [⟨"R"⟩] (by decide) ⟨"R"⟩ (by decide)

/-- C3 witness: pulling the same eid twice from an empty session keeps the
Record Store duplicate-free. -/
theorem record_store_dedup_witness :
    (doc_eids (run_calls fetchW
      [⟨1, "A", 0, false, []⟩, ⟨1, "A", 0, false, []⟩] initSession)).Nodup :=
  record_store_dedup fetchW fetchW_eid [⟨1, "A", 0, false, []⟩, ⟨1, "A", 0, false, []⟩]

/-- C4 witness: a failing fetch of `"X"` on a fresh session only appends to
the fail list (and the instrumentation log). -/
theorem failed_fetch_atomic_witness :
    pull_abstract (fun _ => none) 0 "X" 0 false [] initSession =
      { initSession with fails := initSession.fails ++ ["X"],
                         log := initSession.log ++ [("X", 0)] } :=
  failed_fetch_atomic (fun _ => none) 0 "X" 0 false [] initSession (by decide) rfl

/-- C5, code-bug exhibit.  After a successful pull of `"A"` with caller flags
`{'initial': True}`, the citation node's attribute bag is *not* the flags
merged with the derived `year` — it is a single attribute literally named
`"attr"` whose value is that merged dict (the source passes the whole dict
as the `attr=` keyword of `add_node`).  Consequently
`get_nodes_with_attribute` on key `"year"` (or `"initial"`) selects nothing,
although the claim says it selects the node. -/
theorem flags_nested_under_attr_key :
    c5_session.citation_graph.nodes[0]? =
      some ("A", [("attr", AttrVal.dict
        [("initial", FlagVal.bool true), ("year", FlagVal.str "2020")])]) ∧
    get_nodes_with_attribute c5_session.citation_graph "year"
      (AttrVal.prim (FlagVal.str "2020")) = [] ∧
    get_nodes_with_attribute c5_session.citation_graph "initial"
      (AttrVal.prim (FlagVal.bool true)) = [] := by
  have h : c5_session.citation_graph =
      ⟨[("A", [("attr", AttrVal.dict
          [("initial", FlagVal.bool true), ("year", FlagVal.str "2020")])]),
        ("2-s2.0-R", [])],
       [("A", "2-s2.0-R")]⟩ := by
    simp [c5_session, pull_abstract, pull_references, pull_refs_list,
      process_reference, on_success, is_repeat, initSession, explorer_init,
      fetchW, recA, add_author_edges, Graph.addNode, Graph.addEdge, Graph.empty,
      Graph.inDegree, dictUpdate, dictUpdateMany, eid_from_id, min_indegree_to_pull]
    decide
  rw [h]
  refine ⟨by decide, by decide, by decide⟩

/-- C6.  Checkpoint round-trip: saving a non-empty session under a key and
loading that key back into any session reproduces the Record Store and both
graphs (node sets, edge sets and attribute bags are reproduced bodily). -/
theorem checkpoint_roundtrip (now key : String) (σ σ2 : Session) (fs : FS)
    (hne : σ.documents ≠ []) :
    (load_checkpoint (save_checkpoint now (some key) σ fs) (some key) σ2).documents
        = σ.documents ∧
    (load_checkpoint (save_checkpoint now (some key) σ fs) (some key) σ2).citation_graph
        = σ.citation_graph ∧
    (load_checkpoint (save_checkpoint now (some key) σ fs) (some key) σ2).authorship_graph
        = σ.authorship_graph := by
  simp [load_checkpoint, save_checkpoint]

/-- C6 witness. -/
theorem checkpoint_roundtrip_witness :
    (load_checkpoint (save_checkpoint "ts" (some "K") sessionNonempty (fun _ => none))
        (some "K") initSession).documents = sessionNonempty.documents ∧
    (load_checkpoint (save_checkpoint "ts" (some "K") sessionNonempty (fun _ => none))
        (some "K") initSession).citation_graph = sessionNonempty.citation_graph ∧
    (load_checkpoint (save_checkpoint "ts" (some "K") sessionNonempty (fun _ => none))
        (some "K") initSession).authorship_graph = sessionNonempty.authorship_graph :=
  checkpoint_roundtrip "ts" "K" sessionNonempty initSession (fun _ => none) (by decide)

/-- C7 counterexample.  A checkpoint blob that unpickles but lacks the
`'citations'` (and `'authorship'`) entries is a failing load — yet it leaves
the Record Store overwritten, because the source assigns the three fields one
statement at a time inside the `try`.  The claim's "leaves all in-memory
structures exactly as they were" is false for this input. -/
theorem load_incomplete_bundle_overwrites :
    (load_checkpoint fsIncomplete (some "K") initSession).documents
      ≠ initSession.documents := by
  decide

/-- C7 amended.  Load-failure atomicity holds for every failure that occurs
before the first assignment: a missing/unreadable file and a blob without a
`'documents'` entry leave the session exactly as it was (and nothing is
raised — the function is total).  A blob containing `'documents'` but missing
a later entry overwrites the fields already assigned. -/
theorem load_checkpoint_atomic_until_first_read (fs : FS) (key : String)
    (σ : Session)
    (h : fs (checkpoint_filename key) = none ∨
         ∃ b, fs (checkpoint_filename key) = some b ∧ b.documents = none) :
    load_checkpoint fs (some key) σ = σ := by
  rcases h with h | ⟨b, hb, hbd⟩
  · simp [load_checkpoint, h]
  · simp [load_checkpoint, hb, hbd]

/-- C7 witness. -/
theorem load_checkpoint_atomic_witness :
    load_checkpoint (fun _ => none) (some "K") initSession = initSession :=
  load_checkpoint_atomic_until_first_read (fun _ => none) "K" initSession (Or.inl rfl)

theorem collectDistances_some (g : Graph) :
    ∀ l : List (String × String),
      (∀ p ∈ l, (shortest_path_length g p.1 p.2).isSome) →
      ∃ ys, collectDistances g l = some ys ∧ ys.length = l.length := by
  intro l
  induction l with
  | nil => intro _; exact ⟨[], rfl, rfl⟩
  | cons x xs ih =>
    intro h
    obtain ⟨y, hy⟩ := Option.isSome_iff_exists.mp (h x (List.mem_cons_self x xs))
    obtain ⟨ys, hys, hlen⟩ := ih (fun z hz => h z (List.mem_cons_of_mem x hz))
    refine ⟨y :: ys, ?_, by simp [hlen]⟩
    simp [collectDistances, hy, hys]

theorem foldlM_min (g : String → Option Nat) :
    ∀ (l : List String) (acc : Nat), (∀ i ∈ l, (g i).isSome) →
      ∃ v, l.foldlM (fun dist i => (g i).map (fun t => min dist t)) acc = some v ∧
        v ≤ acc ∧ ∀ i ∈ l, ∀ t, g i = some t → v ≤ t := by
  intro l
  induction l with
  | nil => intro acc _; exact ⟨acc, rfl, le_rfl, by simp⟩
  | cons x xs ih =>
    intro acc h
    obtain ⟨y, hy⟩ := Option.isSome_iff_exists.mp (h x (List.mem_cons_self x xs))
    obtain ⟨v, hv, hvle, hvmin⟩ :=
      ih (min acc y) (fun z hz => h z (List.mem_cons_of_mem x hz))
    refine ⟨v, ?_, le_trans hvle (min_le_left _ _), ?_⟩
    · simp only [List.foldlM_cons, hy, Option.map_some]
      exact hv
    · intro i hi t ht
      rcases List.mem_cons.mp hi with rfl | hi
      · rw [hy] at ht
        injection ht with ht
        exact ht ▸ le_trans hvle (min_le_right _ _)
      · exact hvmin i hi t ht

theorem get_nodes_with_attribute_foldl (a : String) (v : AttrVal) :
    ∀ (nodes : List (String × Attr)) (acc : List String),
      nodes.foldl
        (fun selected p =>
          match dictGet p.2 a with
          | some w => if w = v then selected ++ [p.1] else selected
          | none => selected) acc
        = acc ++ (nodes.filter (fun p => dictGet p.2 a == some v)).map Prod.fst := by
  intro nodes
  induction nodes with
  | nil => intro acc; simp
  | cons p ps ih =>
    intro acc
    simp only [List.foldl_cons]
    rcases hd : dictGet p.2 a with _ | w
    · simp [hd, ih, List.filter_cons]
    · by_cases hw : w = v
      · simp [hd, hw, ih, List.filter_cons]
      · have hbeq : (some w == some v) = false := by
          simpa [beq_eq_false_iff_ne] using hw
        simp [hd, hw, ih, List.filter_cons, hbeq]

theorem get_nodes_with_attribute_eq (g : Graph) (a : String) (v : AttrVal) :
    get_nodes_with_attribute g a v
      = (g.nodes.filter (fun p => dictGet p.2 a == some v)).map Prod.fst := by
  rw [get_nodes_with_attribute, get_nodes_with_attribute_foldl]
  simp

theorem get_nodes_with_attribute_subset (g : Graph) (a : String) (v : AttrVal) :
    ∀ x ∈ get_nodes_with_attribute g a v, x ∈ g.nodeIds := by
  intro x hx
  rw [get_nodes_with_attribute_eq] at hx
  obtain ⟨p, hp, hpx⟩ := List.mem_map.mp hx
  exact hpx ▸ List.mem_map.mpr ⟨p, (List.mem_filter.mp hp).1, rfl⟩

theorem shortest_path_length_self (g : Graph) (u : String) :
    shortest_path_length g u u = some 0 := by
  rw [shortest_path_length, List.range_succ_eq_map]
  rw [List.find?_cons_of_pos]
  simp [reachSet]

theorem connectedU_spec (g : Graph) (hconn : connectedU g = true) :
    ∀ u ∈ g.nodeIds, ∀ v ∈ g.nodeIds, (shortest_path_length g u v).isSome := by
  intro u hu v hv
  rw [connectedU, List.all_eq_true] at hconn
  have := List.all_eq_true.mp (hconn u hu) v hv
  exact this

theorem diameter_isSome_of_connected (g : Graph) (hconn : connectedU g = true)
    (hne : g.nodes ≠ []) : ∃ d0, diameter g = some d0 := by
  have hall : ∀ p ∈ nodePairs g, (shortest_path_length g p.1 p.2).isSome := by
    intro p hp
    rw [nodePairs, List.mem_flatMap] at hp
    obtain ⟨u, hu, hp2⟩ := hp
    obtain ⟨v, hv, rfl⟩ := List.mem_map.mp hp2
    exact connectedU_spec g hconn u hu v hv
  obtain ⟨ys, hys, hlen⟩ := collectDistances_some g (nodePairs g) hall
  rw [diameter, hys]
  obtain ⟨nd, hnd⟩ := List.exists_mem_of_ne_nil g.nodes hne
  have hpair : (nd.1, nd.1) ∈ nodePairs g := by
    rw [nodePairs, List.mem_flatMap]
    have h1 : nd.1 ∈ g.nodeIds := List.mem_map.mpr ⟨nd, hnd, rfl⟩
    exact ⟨nd.1, h1, List.mem_map.mpr ⟨nd.1, h1, rfl⟩⟩
  have : ys ≠ [] := by
    intro hys0
    rw [hys0] at hlen
    have := List.ne_nil_of_mem hpair
    simp only [List.length_nil] at hlen
    exact this (List.eq_nil_of_length_eq_zero hlen.symm)
  rcases ys with _ | ⟨d, ds⟩
  · exact absurd rfl this
  · exact ⟨ds.foldl max d, rfl⟩

/-- C8 counterexample.  On a session whose citation graph is disconnected
(two isolated nodes, one of them flagged `initial = True`), the distance
query raises inside `nx.diameter` ("found infinite path length") even for
the seed-flagged node itself — instead of returning 0 as the claim states. -/
theorem distance_raises_on_disconnected :
    "A" ∈ get_nodes_with_attribute sessionDisconnected.citation_graph "initial"
        (AttrVal.prim (FlagVal.bool true)) ∧
    distance_from_initial_sample sessionDisconnected "A" = none := by
  refine ⟨by decide, by decide⟩

/-- C8 amended.  On a session whose citation graph has a nonempty, connected
undirected projection, for every node `n` of the graph:
`distance_from_initial_sample` returns 0 when `n` itself is flagged
`initial = True`, and in any case returns a finite value bounded by the
graph's diameter (in particular for every node connected to a seed node). -/
theorem distance_from_initial_connected (σ : Session) (n : String)
    (hconn : connectedU σ.citation_graph = true)
    (hne : σ.citation_graph.nodes ≠ [])
    (hn : n ∈ σ.citation_graph.nodeIds) :
    (n ∈ get_nodes_with_attribute σ.citation_graph "initial"
        (AttrVal.prim (FlagVal.bool true)) →
      distance_from_initial_sample σ n = some 0) ∧
    (∃ v d0, diameter σ.citation_graph = some d0 ∧
      distance_from_initial_sample σ n = some v ∧ v ≤ d0) := by
  obtain ⟨d0, hd0⟩ := diameter_isSome_of_connected _ hconn hne
  have hsp : ∀ i ∈ get_nodes_with_attribute σ.citation_graph "initial"
      (AttrVal.prim (FlagVal.bool true)),
      ((fun i => shortest_path_length σ.citation_graph i n) i).isSome := by
    intro i hi
    exact connectedU_spec _ hconn i
      (get_nodes_with_attribute_subset _ _ _ i hi) n hn
  obtain ⟨v, hv, hvle, hvmin⟩ := foldlM_min
    (fun i => shortest_path_length σ.citation_graph i n) _ d0 hsp
  have hdist : distance_from_initial_sample σ n = some v := by
    rw [distance_from_initial_sample]
    rw [hd0]
    exact hv
  constructor
  · intro hflag
    have h0 := hvmin n hflag 0 (shortest_path_length_self σ.citation_graph n)
    rw [hdist, Nat.le_zero.mp h0]
  · exact ⟨v, d0, hd0, hdist, hvle⟩

/-- C8 witness: on a connected two-node graph with seed `"A"`, the distance
query returns 0 at `"A"`. -/
theorem distance_from_initial_connected_witness :
    distance_from_initial_sample sessionConnected "A" = some 0 :=
  (distance_from_initial_connected sessionConnected "A" (by decide) (by decide)
    (by decide)).1 (by decide)

/-- C9, code-bug exhibit.  On a freshly constructed session `reset_time` is
the empty *string* (not `None`), so `quotas` does not take the sentinel
branch: it calls `datetime.fromisoformat('')`, which raises `ValueError`
(here: any `fromiso` with `fromiso "" = none`), instead of printing the
"Reset Time Unknown" sentinel. -/
theorem quotas_fresh_raises (fromiso : String → Option Int) (now : Int)
    (h : fromiso "" = none) :
    quotas fromiso now initSession
      = Except.error "ValueError: Invalid isoformat string" := by
  simp [quotas, initSession, explorer_init, h]

/-- C9 witness. -/
theorem quotas_fresh_raises_witness :
    quotas (fun _ => none) 0 initSession
      = Except.error "ValueError: Invalid isoformat string" :=
  quotas_fresh_raises (fun _ => none) 0 rfl

/-- C10, code-bug exhibit.  After an earlier session constructed with the
default argument pulls one document, a second session constructed with the
default argument starts with a non-empty Record Store: the two share the one
list object created for the `documents = []` default.  (The other fields —
fails, both graphs, target depth — are rebuilt per construction and are
genuinely fresh; only the Record Store leaks.) -/
theorem second_fresh_session_not_empty :
    second_fresh_session.documents = [recA] ∧
    second_fresh_session.documents ≠ [] ∧
    second_fresh_session.fails = [] ∧
    second_fresh_session.citation_graph = Graph.empty ∧
    second_fresh_session.target_depth = 0 := by
  have h : second_fresh_session.documents = [recA] := by
    simp [second_fresh_session, pull_abstract, pull_references, pull_refs_list,
      process_reference, on_success, is_repeat, initSession, explorer_init,
      fetchW, recA, add_author_edges, Graph.addNode, Graph.addEdge, Graph.empty,
      Graph.inDegree, dictUpdate, dictUpdateMany, eid_from_id, min_indegree_to_pull]
  refine ⟨h, by rw [h]; simp, rfl, rfl, rfl⟩

end CiteNetX
